import Mathlib

/- Verification of the pragma-web helper scripts.

   This file gives a shallow embedding of the two Python scripts
   helpers/new_post.py and helpers/make_gallery.py, and proves theorems about
   the behaviour stated in the specification.  Python strings are modelled as
   lists of characters; the filesystem, the clock, the random source and the
   operator input are explicit parameters of each embedded function.  Library
   calls of the Python standard library (datetime.strptime, str.strip,
   os.path.splitext, ...) are embedded per their documented behaviour,
   restricted to the ASCII data this program manipulates. -/

/-- Python strings are modelled as lists of characters. -/
abbrev Str := List Char

/-- Decidable equality of exception results, used to evaluate the embedded
functions on concrete inputs. -/
instance exceptDecEq {ε α : Type} [DecidableEq ε] [DecidableEq α] :
    DecidableEq (Except ε α) := fun x y =>
  match x, y with
  | Except.error a, Except.error b =>
      if h : a = b then Decidable.isTrue (by rw [h]) else Decidable.isFalse (by simp [h])
  | Except.error _, Except.ok _ => Decidable.isFalse (by simp)
  | Except.ok _, Except.error _ => Decidable.isFalse (by simp)
  | Except.ok a, Except.ok b =>
      if h : a = b then Decidable.isTrue (by rw [h]) else Decidable.isFalse (by simp [h])

/-- Characters treated as whitespace by str.strip with no argument and by
the whitespace class in the regular expressions compiled by strptime
(ASCII range). -/
def isPySpace (c : Char) : Bool :=
  c = ' ' || c = '\t' || c = '\n' || c = '\r' || c = '\x0b' || c = '\x0c'

/-- Python str.strip with no argument: remove leading and trailing whitespace. -/
def pyStrip (s : Str) : Str :=
  ((s.dropWhile isPySpace).reverse.dropWhile isPySpace).reverse

/-- Python str.lower, on the ASCII range used by this program. -/
def pyLower (s : Str) : Str := s.map Char.toLower

/-- Python str.endswith with a single string argument. -/
def pyEndsWith (s pat : Str) : Bool := pat.isSuffixOf s

/-- Python str.startswith with a single string argument. -/
def pyStartsWith (s pat : Str) : Bool := pat.isPrefixOf s

/-- Python str.isalpha, on the ASCII range: nonempty and every character
alphabetic. -/
def pyIsAlpha (s : Str) : Bool := !s.isEmpty && s.all Char.isAlpha

/-- Python str.islower, on the ASCII range: at least one cased character and
no uppercase character. -/
def pyIsLower (s : Str) : Bool :=
  s.any (fun c => c.isLower) && s.all (fun c => !c.isUpper)

/-- Python int() applied to a float (here: a rational), truncating toward
zero. -/
def pyInt (q : ℚ) : Int := q.num.tdiv (q.den : Int)

/-- Python str() of an integer, as a character list. -/
def strOfInt (i : Int) : Str := (toString i).toList

/- ----------------------------------------------------------------------
   helpers/new_post.py : load_dictionary_words
   ---------------------------------------------------------------------- -/

/-- State of one of the three candidate dictionary files of
load_dictionary_words: the path does not exist, the path exists but opening
or reading it raises (the except branch), or it is readable with the given
list of lines (each line given without its trailing newline, as the
str.strip in the source removes it anyway). -/
inductive DictFile where
  | absent
  | unreadable
  | content (lines : List Str)

/-- The per-line filter of load_dictionary_words: the stripped line has
length 3 to 8, is alphabetic and is lowercase. -/
def dictLineOk (l : Str) : Bool :=
  decide (3 ≤ (pyStrip l).length) && decide ((pyStrip l).length ≤ 8)
    && pyIsAlpha (pyStrip l) && pyIsLower (pyStrip l)

/-- The loop of load_dictionary_words over the candidate dictionary paths:
the first readable file is filtered and ends the loop (even when the filter
keeps nothing); missing or unreadable files are skipped. -/
def firstDictWords : List DictFile → List Str
  | [] => []
  | DictFile.absent :: rest => firstDictWords rest
  | DictFile.unreadable :: rest => firstDictWords rest
  | DictFile.content lines :: _ =>
      lines.filterMap (fun l => if dictLineOk l then some (pyLower (pyStrip l)) else none)

/-- The built-in fallback word list of load_dictionary_words. -/
def fallbackWords : List Str :=
  ["apple", "brave", "cloud", "dream", "earth", "flame", "green", "happy",
   "idea", "jump", "kind", "light", "magic", "north", "ocean", "peace",
   "quick", "river", "smile", "tree", "under", "voice", "water", "young",
   "dance", "bright", "swift", "gentle", "strong", "quiet", "warm", "fresh"
  ].map (fun s => s.toList)

/-- load_dictionary_words of helpers/new_post.py, with the states of the
three candidate dictionary paths passed explicitly (in path order). -/
def load_dictionary_words (env : List DictFile) : List Str :=
  let words := firstDictWords env
  if words.isEmpty then fallbackWords else words

/- ----------------------------------------------------------------------
   helpers/new_post.py : generate_filename
   ---------------------------------------------------------------------- -/

/-- The literal ".txt". -/
def txtSuffix : Str := ".txt".toList

/-- One random.sample(words, 3) draw: the random source supplies a list of
positions into the word list.  random.sample raises ValueError when the
population has fewer than 3 elements; the caller checks that first.
Quantifying over arbitrary position lists subsumes the library guarantee
that the three positions are distinct. -/
def sampleWords (words : List Str) (idx : List Nat) : List Str :=
  (List.range 3).map (fun j => words.getD (idx.getD j 0 % words.length) [])

/-- The filename built from one sample: the three words joined with an
underscore, with ".txt" appended. -/
def sampleName (words : List Str) (idx : List Nat) : Str :=
  List.intercalate ['_'] (sampleWords words idx) ++ txtSuffix

/-- The bounded retry loop of generate_filename: fuel attempts remain and i
is the current attempt number.  Each attempt first calls random.sample,
which raises (the error case) when fewer than 3 words are available;
otherwise the sampled name is returned when it does not exist on disk.
Returning none means every attempt collided. -/
def genAttempts (words : List Str) (rand : Nat → List Nat) (fs : List Str) :
    Nat → Nat → Except Unit (Option Str)
  | 0, _ => Except.ok none
  | fuel+1, i =>
      if words.length < 3 then Except.error ()
      else if sampleName words (rand i) ∈ fs then genAttempts words rand fs fuel (i+1)
      else Except.ok (some (sampleName words (rand i)))

/-- The fallback filename of generate_filename: str(int(time.time())) +
".txt", where the argument is the value of the time.time() call made at the
moment of the fallback. -/
def fallbackTimestampName (tFallback : ℚ) : Str :=
  strOfInt (pyInt tFallback) ++ txtSuffix

/-- generate_filename of helpers/new_post.py.  fs is the set of paths that
exist on disk at the time of the existence checks, rand the random source,
and tFallback the value time.time() would return at the fallback line. -/
def generate_filename (dict : List DictFile) (rand : Nat → List Nat)
    (fs : List Str) (tFallback : ℚ) : Except Unit Str :=
  match genAttempts (load_dictionary_words dict) rand fs 3 0 with
  | Except.error e => Except.error e
  | Except.ok (some fn) => Except.ok fn
  | Except.ok none => Except.ok (fallbackTimestampName tFallback)

/- ----------------------------------------------------------------------
   helpers/new_post.py : get_user_filename
   ---------------------------------------------------------------------- -/

/-- The literal "y" that the overwrite confirmation compares against. -/
def yesStr : Str := ['y']

/-- The filename derived from a non-empty operator input line: the stripped
input, with ".txt" appended when it does not already end in ".txt". -/
def typedName (line : Str) : Str :=
  if pyEndsWith (pyStrip line) txtSuffix then pyStrip line
  else pyStrip line ++ txtSuffix

/-- get_user_filename of helpers/new_post.py.  fs is the set of existing
paths, line the operator input at the filename prompt and answer the
operator input at the overwrite prompt (read only when the typed name
exists).  The result is the accepted filename together with a flag
recording whether the overwrite confirmation was prompted; the error case
is sys.exit(1). -/
def get_user_filename (fs : List Str) (suggested line answer : Str) :
    Except Nat (Str × Bool) :=
  if (pyStrip line).isEmpty then Except.ok (suggested, false)
  else if typedName line ∈ fs then
    (if pyLower (pyStrip answer) = yesStr then Except.ok (typedName line, true)
     else Except.error 1)
  else Except.ok (typedName line, false)

/- ----------------------------------------------------------------------
   helpers/new_post.py : the post template
   ---------------------------------------------------------------------- -/

/-- The part of the output template before the interpolated timestamp. -/
def postHeaderPart : Str :=
  "title:None\ntags:\nsummary:\nstatic_icon:\nparse:\ndate:".toList

/-- The part of the output template after the interpolated timestamp. -/
def postTailPart : Str :=
  "\n###\nYour content here (Markdown and/or HTML can mix freely, see README)".toList

/-- The output string composed at the top level of new_post.py, around
str(now); nowStr stands for that rendering of the resolved timestamp. -/
def postOutput (nowStr : Str) : Str := postHeaderPart ++ nowStr ++ postTailPart

/-- The bytes that reach the post file: print appends one newline to the
output string. -/
def writtenPost (nowStr : Str) : Str := postOutput nowStr ++ ['\n']

/-- Python str.splitlines restricted to newline terminators (the only line
break characters this program emits): a trailing newline does not open a
final empty line. -/
def pySplitlines : Str → List Str
  | [] => []
  | c :: cs =>
      if c = '\n' then [] :: pySplitlines cs
      else
        match pySplitlines cs with
        | [] => [[c]]
        | l :: ls => (c :: l) :: ls

/- ----------------------------------------------------------------------
   The proleptic Gregorian calendar, as used by the datetime module
   ---------------------------------------------------------------------- -/

/-- A calendar date. -/
structure Date where
  year : Nat
  month : Nat
  day : Nat
deriving DecidableEq

/-- A date with a time of day to the minute, the data strptime produces for
the format of new_post.py (seconds default to zero). -/
structure DT where
  date : Date
  hour : Nat
  minute : Nat
deriving DecidableEq

/-- Gregorian leap year test. -/
def isLeapYear (y : Nat) : Bool :=
  y % 4 = 0 && (y % 100 ≠ 0 || y % 400 = 0)

/-- 1 for a leap year, 0 otherwise. -/
def leapBit (y : Nat) : Nat := if isLeapYear y then 1 else 0

/-- Number of days of a month. -/
def monthLength (y m : Nat) : Nat :=
  if m = 2 then (if isLeapYear y then 29 else 28)
  else if m = 4 || m = 6 || m = 9 || m = 11 then 30
  else 31

/-- Days of year y that precede the first day of month m. -/
def daysBeforeMonth (y m : Nat) : Nat :=
  match m with
  | 2 => 31
  | 3 => 59 + leapBit y
  | 4 => 90 + leapBit y
  | 5 => 120 + leapBit y
  | 6 => 151 + leapBit y
  | 7 => 181 + leapBit y
  | 8 => 212 + leapBit y
  | 9 => 243 + leapBit y
  | 10 => 273 + leapBit y
  | 11 => 304 + leapBit y
  | 12 => 334 + leapBit y
  | _ => 0

/-- Days from 0001-01-01 to the first day of year y. -/
def yearDays (y : Nat) : Nat :=
  365 * (y - 1) + (y - 1) / 4 - (y - 1) / 100 + (y - 1) / 400

/-- Days from 0001-01-01 to the given date. -/
def daysFrom1 (d : Date) : Nat :=
  yearDays d.year + daysBeforeMonth d.year d.month + (d.day - 1)

/-- A date that exists in the calendar (year 0 does not exist for the
datetime module). -/
def validDate (d : Date) : Prop :=
  1 ≤ d.year ∧ 1 ≤ d.month ∧ d.month ≤ 12 ∧ 1 ≤ d.day ∧
    d.day ≤ monthLength d.year d.month

instance (d : Date) : Decidable (validDate d) := by
  unfold validDate; infer_instance

/-- The calendar successor of a date. -/
def nextDate (d : Date) : Date :=
  if d.day < monthLength d.year d.month then ⟨d.year, d.month, d.day + 1⟩
  else if d.month < 12 then ⟨d.year, d.month + 1, 1⟩
  else ⟨d.year + 1, 1, 1⟩

/-- The calendar predecessor of a date. -/
def prevDate (d : Date) : Date :=
  if 1 < d.day then ⟨d.year, d.month, d.day - 1⟩
  else if 1 < d.month then ⟨d.year, d.month - 1, monthLength d.year (d.month - 1)⟩
  else ⟨d.year - 1, 12, 31⟩

/-- 1970-01-01, the Unix epoch. -/
def unixEpochDate : Date := ⟨1970, 1, 1⟩

/-- Days from 0001-01-01 to the Unix epoch. -/
def epochDayCount : Nat := 719162

/-- The date at signed day offset z from the Unix epoch: the calendar
inverse of the day count, realised by iterating the calendar successor or
predecessor. -/
def dateFromDays (z : Int) : Date :=
  if 0 ≤ z then nextDate^[z.toNat] unixEpochDate
  else prevDate^[(-z).toNat] unixEpochDate

/-- datetime.timestamp() of a naive datetime, for a local timezone at a
fixed offset of tz minutes east of UTC (daylight-saving transitions are
outside this model): whole seconds since the Unix epoch. -/
def dtToEpoch (tz : Int) (d : DT) : Int :=
  86400 * ((daysFrom1 d.date : Int) - (epochDayCount : Int))
    + 3600 * (d.hour : Int) + 60 * (d.minute : Int) - 60 * tz

/-- datetime.fromtimestamp for the same fixed-offset local timezone,
truncated to the minute. -/
def epochToDT (tz : Int) (e : Int) : DT :=
  ⟨dateFromDays ((e + 60 * tz) / 86400),
   ((e + 60 * tz) % 86400).toNat / 3600,
   ((e + 60 * tz) % 86400).toNat % 3600 / 60⟩

/- ----------------------------------------------------------------------
   datetime.strptime with the literal format of new_post.py
   ---------------------------------------------------------------------- -/

/-- The decimal digit characters. -/
def digitChars : Str := "0123456789".toList

/-- Membership in the digit class of the strptime regular expressions
(ASCII range). -/
def isDigitChar (c : Char) : Bool := digitChars.contains c

/-- Value of a digit character. -/
def digitVal (c : Char) : Nat := digitChars.indexOf c

/-- The full month names matched by the month field of the format, in
month order. -/
def monthNames : List Str :=
  ["January", "February", "March", "April", "May", "June", "July",
   "August", "September", "October", "November", "December"
  ].map (fun s => s.toList)

/-- Strip a case-insensitive occurrence of name from the front of s
(strptime compiles its pattern with IGNORECASE). -/
def dropCaseInsensitive (name s : Str) : Option Str :=
  match name, s with
  | [], r => some r
  | _ :: _, [] => none
  | a :: as, b :: bs =>
      if a.toLower = b.toLower then dropCaseInsensitive as bs else none

/-- Try the month names in order (they are pairwise prefix-free, so at most
one can match); i is the month number of the first candidate. -/
def matchMonthFrom : Nat → List Str → Str → Option (Nat × Str)
  | _, [], _ => none
  | i, n :: ns, s =>
      match dropCaseInsensitive n s with
      | some r => some (i, r)
      | none => matchMonthFrom (i+1) ns s

/-- Match the month-name field at the front of s, returning the month
number and the rest of the input. -/
def matchMonth (s : Str) : Option (Nat × Str) := matchMonthFrom 1 monthNames s

/-- Match one or more whitespace characters (a literal space in the format
is compiled to one-or-more whitespace); the match is greedy, which is
deterministic here because each following token starts with a non-space
character. -/
def skipWS1 : Str → Option Str
  | [] => none
  | c :: r => if isPySpace c then some (r.dropWhile isPySpace) else none

/-- Match a one- or two-digit numeric field with the backtracking of a
regular-expression alternation: the two-digit reading is tried first when
its value satisfies ok2, and on failure of the rest of the match the
one-digit reading is tried when its value satisfies ok1; k continues the
match. -/
def num21 (ok2 ok1 : Nat → Bool) (s : Str) (k : Nat → Str → Option DT) :
    Option DT :=
  match s with
  | [] => none
  | [c] => if isDigitChar c && ok1 (digitVal c) then k (digitVal c) [] else none
  | c1 :: c2 :: r =>
      if isDigitChar c1 && isDigitChar c2 then
        (if ok2 (10 * digitVal c1 + digitVal c2) then
            k (10 * digitVal c1 + digitVal c2) r
         else none).orElse
        (fun _ => if ok1 (digitVal c1) then k (digitVal c1) (c2 :: r) else none)
      else if isDigitChar c1 then
        (if ok1 (digitVal c1) then k (digitVal c1) (c2 :: r) else none)
      else none

/-- Match exactly four digits (the year field). -/
def parseY4 (s : Str) : Option (Nat × Str) :=
  match s with
  | a :: b :: c :: d :: r =>
      if isDigitChar a && isDigitChar b && isDigitChar c && isDigitChar d then
        some (1000 * digitVal a + 100 * digitVal b + 10 * digitVal c + digitVal d, r)
      else none
  | _ => none

/-- Two-digit day values accepted by the day field pattern. -/
def dayOk2 (v : Nat) : Bool := decide (1 ≤ v) && decide (v ≤ 31)

/-- One-digit day values accepted by the day field pattern. -/
def dayOk1 (v : Nat) : Bool := decide (1 ≤ v)

/-- Two-digit hour values accepted by the hour field pattern. -/
def hourOk2 (v : Nat) : Bool := decide (v ≤ 23)

/-- Two-digit minute values accepted by the minute field pattern. -/
def minuteOk2 (v : Nat) : Bool := decide (v ≤ 59)

/-- Any one-digit value is accepted by the hour and minute patterns. -/
def anyOk1 (_ : Nat) : Bool := true

/-- datetime.strptime(s, the literal format of new_post.py): the compiled
pattern is month name, whitespace, day, whitespace, four-digit year,
whitespace, hour, a colon, minute; the whole input must be consumed, and
the date fields must name an existing datetime (day in range for the
month, year at least 1). -/
def strptimeBdYHM (s : Str) : Option DT :=
  match matchMonth s with
  | none => none
  | some (m, r1) =>
    match skipWS1 r1 with
    | none => none
    | some r2 =>
      num21 dayOk2 dayOk1 r2 (fun day r3 =>
        match skipWS1 r3 with
        | none => none
        | some r4 =>
          match parseY4 r4 with
          | none => none
          | some (year, r5) =>
            match skipWS1 r5 with
            | none => none
            | some r6 =>
              num21 hourOk2 anyOk1 r6 (fun hour r7 =>
                match r7 with
                | ':' :: r8 =>
                    num21 minuteOk2 anyOk1 r8 (fun minute r9 =>
                      if r9 = [] then
                        if 1 ≤ year ∧ day ≤ monthLength year m then
                          some ⟨⟨year, m, day⟩, hour, minute⟩
                        else none
                      else none)
                | _ => none))

/- ----------------------------------------------------------------------
   helpers/new_post.py : the top level as one run
   ---------------------------------------------------------------------- -/

/-- The environment of one run of new_post.py: command-line arguments after
the script name, the wall-clock time at the top-level time.time() call, the
local-timezone offset east of UTC in minutes, the dictionary-file states,
the random source, the set of paths existing on disk at the time of the
existence checks, the two operator input lines, the wall-clock time at the
fallback time.time() call inside generate_filename, and whether the
spawned mkdir child succeeds. -/
structure RunEnv where
  args : List Str
  t0 : ℚ
  tz : Int
  dict : List DictFile
  rand : Nat → List Nat
  fs : List Str
  userLine : Str
  answer : Str
  tFallback : ℚ
  mkdirOk : Bool

/-- How a run of new_post.py terminates: falling off the end (exit status
0), an explicit sys.exit(n), or an uncaught exception (Python prints a
traceback diagnostic on stderr and exits with a nonzero status). -/
inductive ExitKind where
  | normal
  | code (n : Nat)
  | uncaught
deriving DecidableEq

/-- The observable outcome of one run of new_post.py: the post file written
(if any), the argument vectors passed to subprocess.run in order, how the
process terminated, whether the image directory was created, and whether
the overwrite confirmation was prompted. -/
structure RunResult where
  written : Option Str
  spawned : List (List Str)
  exit : ExitKind
  dirCreated : Bool
  confirmAsked : Bool
deriving DecidableEq

/-- The date string of a run: the arguments joined with single spaces. -/
def joinedArgs (args : List Str) : Str := List.intercalate [' '] args

/-- The value now holds after the top-level argument handling: the start
wall-clock time when no arguments were given, otherwise the epoch
timestamp of the parsed date string; the error case is the uncaught
ValueError that strptime raises on a string that does not match the
format. -/
def resolvedNow (env : RunEnv) : Except Unit ℚ :=
  if env.args = [] then Except.ok env.t0
  else
    match strptimeBdYHM (pyStrip (joinedArgs env.args)) with
    | none => Except.error ()
    | some d => Except.ok ((dtToEpoch env.tz d : Int) : ℚ)

/-- The image directory path derived from the chosen filename: the
filename without its ".txt" suffix, prefixed with "../img/". -/
def imageDirOf (fn : Str) : Str :=
  "../img/".toList ++ (if pyEndsWith fn txtSuffix then fn.take (fn.length - 4) else fn)

/-- One run of new_post.py, from argument handling to the three
subprocess.run calls.  subprocess.run is called without check=True, so a
failing mkdir child does not stop the parent: the viewer and editor are
spawned and the run falls through to a normal exit regardless of
env.mkdirOk. -/
def runNewPost (env : RunEnv) : RunResult :=
  match resolvedNow env with
  | Except.error _ => ⟨none, [], ExitKind.uncaught, false, false⟩
  | Except.ok _ =>
    match generate_filename env.dict env.rand env.fs env.tFallback with
    | Except.error _ => ⟨none, [], ExitKind.uncaught, false, false⟩
    | Except.ok sug =>
      match get_user_filename env.fs sug env.userLine env.answer with
      | Except.error n => ⟨none, [], ExitKind.code n, false, true⟩
      | Except.ok (fn, asked) =>
          ⟨some fn,
           [["mkdir".toList, imageDirOf fn], ["open".toList, imageDirOf fn],
            ["vim".toList, fn]],
           ExitKind.normal, env.mkdirOk, asked⟩

/- ----------------------------------------------------------------------
   helpers/make_gallery.py : generate_gallery_html
   ---------------------------------------------------------------------- -/

/-- Python str.rstrip with a single slash argument. -/
def pyRstripSlash (s : Str) : Str :=
  (s.reverse.dropWhile (fun c => c = '/')).reverse

/-- os.path.join with two arguments, posix rules. -/
def pyPathJoin (a b : Str) : Str :=
  if b.head? = some '/' then b
  else if a = [] then b
  else if a.getLast? = some '/' then a ++ b
  else a ++ '/' :: b

/-- The index where os.path.splitext cuts: the position of the last dot
when that dot lies in the basename and has a non-dot character before it
in the basename, and the length of the path otherwise (no extension). -/
def pySplitextIdx (p : Str) : Nat :=
  let nameRev := p.reverse.takeWhile (fun c => c ≠ '/')
  let extRev := nameRev.takeWhile (fun c => c ≠ '.')
  match nameRev.dropWhile (fun c => c ≠ '.') with
  | [] => p.length
  | _ :: stemRev =>
      if stemRev.any (fun c => c ≠ '.') then p.length - (extRev.length + 1)
      else p.length

/-- os.path.splitext: the pair (p up to the cut, p from the cut). -/
def pySplitext (p : Str) : Str × Str :=
  (p.take (pySplitextIdx p), p.drop (pySplitextIdx p))

/-- The image-name test of make_gallery.py:
filename.lower().endswith((".jpg", ".jpeg", ".png")). -/
def isImageName (f : Str) : Bool :=
  pyEndsWith (pyLower f) ".jpg".toList || pyEndsWith (pyLower f) ".jpeg".toList
    || pyEndsWith (pyLower f) ".png".toList

/-- The literal "thumb". -/
def thumbLit : Str := "thumb".toList

/-- Python string comparison, not greater-than: lexicographic by code
point, a proper prefix comparing less. -/
def pyStrLe : Str → Str → Bool
  | [], _ => true
  | _ :: _, [] => false
  | a :: as, b :: bs => if a < b then true else if a = b then pyStrLe as bs else false

/-- The anchor block emitted for one file, exactly as the f-string literal
of make_gallery.py builds it (thumb_name is the splitext base with "thumb"
prefixed and the extension re-appended). -/
def anchorLine (directory gallery_name file : Str) : Str :=
  let base_name := (pySplitext file).1
  let ext := (pySplitext file).2
  let thumb_name := thumbLit ++ base_name ++ ext
  "<a href=\"".toList ++ pyPathJoin directory file
    ++ "\" class=\"glightbox\" \n \tdata-glightbox=\"descPosition: right;\"\n\tdata-gallery=\"".toList
    ++ gallery_name
    ++ "\" \n\tdata-title=\"\" \n\tdata-description=\"\">\n\t\t<img src=\"".toList
    ++ pyPathJoin directory thumb_name
    ++ "\" alt=\"".toList ++ base_name ++ "\">\n</a>".toList

/-- generate_gallery_html of helpers/make_gallery.py, with the directory
listing passed explicitly: strip trailing slashes from the directory, keep
the image files, sort them (list.sort is a stable sort by the order that
pyStrLe decides), and emit one anchor block per file not starting with
"thumb", joined with newlines. -/
def generate_gallery_html (directory : Str) (listing : List Str)
    (gallery_name : Str) : Str :=
  let dir2 := pyRstripSlash directory
  let files := (listing.filter isImageName).mergeSort pyStrLe
  let html_lines := files.foldr
    (fun file acc =>
      if pyStartsWith file thumbLit then acc
      else anchorLine dir2 gallery_name file :: acc) []
  List.intercalate ['\n'] html_lines

/-- The anchor block as the specification describes it: the href is the
original file joined to the directory, and the img src is the counterpart
name of the same directory obtained by prefixing "thumb" to the whole
filename. -/
def anchorLineSpec (directory gallery_name file : Str) : Str :=
  "<a href=\"".toList ++ pyPathJoin directory file
    ++ "\" class=\"glightbox\" \n \tdata-glightbox=\"descPosition: right;\"\n\tdata-gallery=\"".toList
    ++ gallery_name
    ++ "\" \n\tdata-title=\"\" \n\tdata-description=\"\">\n\t\t<img src=\"".toList
    ++ pyPathJoin directory (thumbLit ++ file)
    ++ "\" alt=\"".toList ++ (pySplitext file).1 ++ "\">\n</a>".toList

/- ----------------------------------------------------------------------
   Calendar lemmas
   ---------------------------------------------------------------------- -/

/-- Every month has at least one day. -/
theorem monthLength_pos (y m : Nat) : 1 ≤ monthLength y m := by
  unfold monthLength
  split
  · split <;> omega
  · split <;> omega

/-- Every month has at most 31 days. -/
theorem monthLength_le (y m : Nat) : monthLength y m ≤ 31 := by
  unfold monthLength
  split
  · split <;> omega
  · split <;> omega

/-- The day count before a month grows by the month length. -/
theorem daysBeforeMonth_succ (y m : Nat) (h1 : 1 ≤ m) (h2 : m ≤ 11) :
    daysBeforeMonth y (m + 1) = daysBeforeMonth y m + monthLength y m := by
  interval_cases m <;> by_cases hL : isLeapYear y = true <;>
    simp [daysBeforeMonth, monthLength, leapBit, hL]

/-- The leap bit as an arithmetic conditional. -/
theorem leapBit_eq (y : Nat) :
    leapBit y = if y % 4 = 0 ∧ (y % 100 ≠ 0 ∨ y % 400 = 0) then 1 else 0 := by
  unfold leapBit isLeapYear
  by_cases h4 : y % 4 = 0 <;> by_cases h100 : y % 100 = 0 <;>
    by_cases h400 : y % 400 = 0 <;> simp [h4, h100, h400]

set_option maxHeartbeats 1000000 in
/-- The day count before the first day of a year grows by the year length. -/
theorem yearDays_succ (y : Nat) (h : 1 ≤ y) :
    yearDays (y + 1) = yearDays y + 365 + leapBit y := by
  rw [leapBit_eq]
  unfold yearDays
  split
  · omega
  · omega

/-- yearDays is monotone. -/
theorem yearDays_mono : Monotone yearDays := by
  apply monotone_nat_of_le_succ
  intro n
  match n with
  | 0 => simp [yearDays]
  | k + 1 => rw [yearDays_succ (k + 1) (by omega)]; omega

/-- Within a valid date, the in-year offset is below the year length. -/
theorem inYear_bound (d : Date) (h : validDate d) :
    daysBeforeMonth d.year d.month + (d.day - 1) ≤ 364 + leapBit d.year := by
  obtain ⟨y, m, day⟩ := d
  obtain ⟨hy, hm1, hm2, hd1, hd2⟩ := h
  simp only at hm1 hm2 hd1 hd2 ⊢
  interval_cases m <;> by_cases hL : isLeapYear y = true <;>
    simp [daysBeforeMonth, monthLength, leapBit, hL] at hd2 ⊢ <;> omega

/-- The day count before a month is monotone over the months of a year. -/
theorem daysBeforeMonth_mono (y : Nat) {a b : Nat} (h1 : 1 ≤ a) (hab : a ≤ b)
    (hb : b ≤ 12) : daysBeforeMonth y a ≤ daysBeforeMonth y b := by
  induction b with
  | zero => omega
  | succ n ih =>
      rcases Nat.lt_or_ge a (n + 1) with hlt | hge
      · have hstep : daysBeforeMonth y (n + 1) = daysBeforeMonth y n + monthLength y n :=
          daysBeforeMonth_succ y n (by omega) (by omega)
        have := ih (by omega) (by omega)
        omega
      · have hin : a = n + 1 := by omega
        rw [hin]

/-- Unfolding lemma for validity of a date literal. -/
theorem validDate_mk (y m day : Nat) :
    validDate ⟨y, m, day⟩ ↔
      (1 ≤ y ∧ 1 ≤ m ∧ m ≤ 12 ∧ 1 ≤ day ∧ day ≤ monthLength y m) :=
  Iff.rfl

/-- Unfolding lemma for the day count of a date literal. -/
theorem daysFrom1_mk (y m day : Nat) :
    daysFrom1 ⟨y, m, day⟩ = yearDays y + daysBeforeMonth y m + (day - 1) :=
  rfl

/-- Strict monotonicity of the day count in calendar order. -/
theorem daysFrom1_lt (d e : Date) (hd : validDate d) (he : validDate e)
    (hlt : d.year < e.year ∨ (d.year = e.year ∧ (d.month < e.month ∨
      (d.month = e.month ∧ d.day < e.day)))) :
    daysFrom1 d < daysFrom1 e := by
  obtain ⟨dy, dm, dd⟩ := d
  obtain ⟨ey, em, ed⟩ := e
  obtain ⟨hdy, hdm1, hdm2, hdd1, hdd2⟩ := hd
  obtain ⟨hey, hem1, hem2, hed1, hed2⟩ := he
  simp only at hdy hdm1 hdm2 hdd1 hdd2 hey hem1 hem2 hed1 hed2 hlt
  unfold daysFrom1
  simp only
  rcases hlt with hy | ⟨rfl, hm | ⟨rfl, hday⟩⟩
  · have hub : daysBeforeMonth dy dm + (dd - 1) ≤ 364 + leapBit dy :=
      inYear_bound ⟨dy, dm, dd⟩ ⟨hdy, hdm1, hdm2, hdd1, hdd2⟩
    have hsy : yearDays (dy + 1) = yearDays dy + 365 + leapBit dy :=
      yearDays_succ dy hdy
    have hmono : yearDays (dy + 1) ≤ yearDays ey := yearDays_mono (by omega)
    have hlb : 0 ≤ daysBeforeMonth ey em + (ed - 1) := Nat.zero_le _
    omega
  · have hstep : daysBeforeMonth dy (dm + 1) = daysBeforeMonth dy dm + monthLength dy dm :=
      daysBeforeMonth_succ dy dm (by omega) (by omega)
    have hmono : daysBeforeMonth dy (dm + 1) ≤ daysBeforeMonth dy em :=
      daysBeforeMonth_mono dy (by omega) (by omega) (by omega)
    omega
  · omega

/-- The day count determines a valid date. -/
theorem daysFrom1_inj (d e : Date) (hd : validDate d) (he : validDate e)
    (heq : daysFrom1 d = daysFrom1 e) : d = e := by
  rcases Nat.lt_trichotomy d.year e.year with h | h | h
  · exact absurd heq (Nat.ne_of_lt (daysFrom1_lt d e hd he (Or.inl h)))
  · rcases Nat.lt_trichotomy d.month e.month with h2 | h2 | h2
    · exact absurd heq (Nat.ne_of_lt (daysFrom1_lt d e hd he (Or.inr ⟨h, Or.inl h2⟩)))
    · rcases Nat.lt_trichotomy d.day e.day with h3 | h3 | h3
      · exact absurd heq
          (Nat.ne_of_lt (daysFrom1_lt d e hd he (Or.inr ⟨h, Or.inr ⟨h2, h3⟩⟩)))
      · obtain ⟨dy, dm, dd⟩ := d
        obtain ⟨ey, em, ed⟩ := e
        simp only at h h2 h3
        simp [h, h2, h3]
      · exact absurd heq.symm
          (Nat.ne_of_lt (daysFrom1_lt e d he hd (Or.inr ⟨h.symm, Or.inr ⟨h2.symm, h3⟩⟩)))
    · exact absurd heq.symm
        (Nat.ne_of_lt (daysFrom1_lt e d he hd (Or.inr ⟨h.symm, Or.inl h2⟩)))
  · exact absurd heq.symm (Nat.ne_of_lt (daysFrom1_lt e d he hd (Or.inl h)))

/-- The calendar successor of a valid date is valid and advances the day
count by one. -/
theorem nextDate_ok (d : Date) (h : validDate d) :
    validDate (nextDate d) ∧ daysFrom1 (nextDate d) = daysFrom1 d + 1 := by
  obtain ⟨y, m, day⟩ := d
  obtain ⟨hy, hm1, hm2, hd1, hd2⟩ := h
  simp only at hy hm1 hm2 hd1 hd2
  unfold nextDate
  simp only
  split
  next hlt =>
    rw [validDate_mk, daysFrom1_mk, daysFrom1_mk]
    omega
  next hge =>
    split
    next hmlt =>
      have hstep : daysBeforeMonth y (m + 1) = daysBeforeMonth y m + monthLength y m :=
        daysBeforeMonth_succ y m (by omega) (by omega)
      have hpos := monthLength_pos y (m + 1)
      rw [validDate_mk, daysFrom1_mk, daysFrom1_mk]
      omega
    next hmge =>
      have hm12 : m = 12 := by omega
      subst hm12
      have hml : monthLength y 12 = 31 := by simp [monthLength]
      have hml1 : monthLength (y + 1) 1 = 31 := by simp [monthLength]
      have hsy : yearDays (y + 1) = yearDays y + 365 + leapBit y := yearDays_succ y hy
      have hdb1 : daysBeforeMonth (y + 1) 1 = 0 := rfl
      have hdb12 : daysBeforeMonth y 12 = 334 + leapBit y := rfl
      rw [validDate_mk, daysFrom1_mk, daysFrom1_mk]
      omega

/-- The calendar predecessor of a valid date after 0001-01-01 is valid and
steps the day count back by one. -/
theorem prevDate_ok (d : Date) (h : validDate d) (hpos : 0 < daysFrom1 d) :
    validDate (prevDate d) ∧ daysFrom1 (prevDate d) + 1 = daysFrom1 d := by
  obtain ⟨y, m, day⟩ := d
  obtain ⟨hy, hm1, hm2, hd1, hd2⟩ := h
  simp only at hy hm1 hm2 hd1 hd2
  rw [daysFrom1_mk] at hpos
  unfold prevDate
  simp only
  split
  next hlt =>
    rw [validDate_mk, daysFrom1_mk, daysFrom1_mk]
    omega
  next hge =>
    have hday : day = 1 := by omega
    subst hday
    split
    next hmlt =>
      have hstep : daysBeforeMonth y (m - 1 + 1) = daysBeforeMonth y (m - 1) + monthLength y (m - 1) :=
        daysBeforeMonth_succ y (m - 1) (by omega) (by omega)
      have hmm : m - 1 + 1 = m := by omega
      rw [hmm] at hstep
      have hmlpos := monthLength_pos y (m - 1)
      rw [validDate_mk, daysFrom1_mk, daysFrom1_mk]
      omega
    next hmge =>
      have hm1' : m = 1 := by omega
      subst hm1'
      have hdb1 : daysBeforeMonth y 1 = 0 := rfl
      rw [hdb1] at hpos
      have hy2 : 2 ≤ y := by
        by_contra hc
        have hy1 : y = 1 := by omega
        subst hy1
        unfold yearDays at hpos
        omega
      have hsy : yearDays (y - 1 + 1) = yearDays (y - 1) + 365 + leapBit (y - 1) :=
        yearDays_succ (y - 1) (by omega)
      have hyy : y - 1 + 1 = y := by omega
      rw [hyy] at hsy
      have hml12 : monthLength (y - 1) 12 = 31 := by simp [monthLength]
      have hdb12 : daysBeforeMonth (y - 1) 12 = 334 + leapBit (y - 1) := rfl
      rw [validDate_mk, daysFrom1_mk, daysFrom1_mk]
      omega

/-- Iterating the calendar successor from the epoch stays valid and counts
days forward. -/
theorem iterNext (n : Nat) :
    validDate (nextDate^[n] unixEpochDate) ∧
      daysFrom1 (nextDate^[n] unixEpochDate) = epochDayCount + n := by
  induction n with
  | zero =>
      refine ⟨by decide, ?_⟩
      rw [Function.iterate_zero_apply]
      rfl
  | succ k ih =>
      rw [Function.iterate_succ_apply']
      obtain ⟨hv, hc⟩ := ih
      obtain ⟨hv2, hc2⟩ := nextDate_ok _ hv
      exact ⟨hv2, by omega⟩

/-- Iterating the calendar predecessor from the epoch stays valid and
counts days backward, as long as 0001-01-01 is not passed. -/
theorem iterPrev (n : Nat) (h : n ≤ epochDayCount) :
    validDate (prevDate^[n] unixEpochDate) ∧
      daysFrom1 (prevDate^[n] unixEpochDate) = epochDayCount - n := by
  induction n with
  | zero =>
      refine ⟨by decide, ?_⟩
      rw [Function.iterate_zero_apply]
      rfl
  | succ k ih =>
      obtain ⟨hv, hc⟩ := ih (by omega)
      rw [Function.iterate_succ_apply']
      have hpos : 0 < daysFrom1 (prevDate^[k] unixEpochDate) := by
        unfold epochDayCount at hc h
        omega
      obtain ⟨hv2, hc2⟩ := prevDate_ok _ hv hpos
      exact ⟨hv2, by omega⟩

/-- The iterated calendar inverse recovers every valid date from its signed
day offset from the epoch. -/
theorem dateFromDays_daysFrom1 (d : Date) (h : validDate d) :
    dateFromDays ((daysFrom1 d : Int) - (epochDayCount : Int)) = d := by
  by_cases hge : epochDayCount ≤ daysFrom1 d
  · have hz : (0 : Int) ≤ (daysFrom1 d : Int) - (epochDayCount : Int) := by omega
    rw [dateFromDays, if_pos hz]
    have ht : ((daysFrom1 d : Int) - (epochDayCount : Int)).toNat
        = daysFrom1 d - epochDayCount := by omega
    rw [ht]
    obtain ⟨hv, hc⟩ := iterNext (daysFrom1 d - epochDayCount)
    exact daysFrom1_inj _ _ hv h (by omega)
  · have hz : ¬ (0 : Int) ≤ (daysFrom1 d : Int) - (epochDayCount : Int) := by
      have : 0 < daysFrom1 d ∨ 0 = daysFrom1 d := by omega
      omega
    rw [dateFromDays, if_neg hz]
    have ht : (-((daysFrom1 d : Int) - (epochDayCount : Int))).toNat
        = epochDayCount - daysFrom1 d := by omega
    rw [ht]
    obtain ⟨hv, hc⟩ := iterPrev (epochDayCount - daysFrom1 d) (by omega)
    exact daysFrom1_inj _ _ hv h (by omega)

/- ----------------------------------------------------------------------
   strptime lemmas
   ---------------------------------------------------------------------- -/

/-- A digit character has value at most 9. -/
theorem digitVal_le (c : Char) (h : isDigitChar c = true) : digitVal c ≤ 9 := by
  have hm : c ∈ digitChars := by
    unfold isDigitChar at h
    exact List.elem_iff.mp h
  have hlt := List.indexOf_lt_length.mpr hm
  have hlen : digitChars.length = 10 := rfl
  unfold digitVal
  omega

/-- A successful month scan yields a month number in the scanned range. -/
theorem matchMonthFrom_bound (ns : List Str) (i : Nat) (s : Str) (m : Nat)
    (r : Str) (h : matchMonthFrom i ns s = some (m, r)) :
    i ≤ m ∧ m < i + ns.length := by
  induction ns generalizing i with
  | nil => simp [matchMonthFrom] at h
  | cons n ns ih =>
      rw [matchMonthFrom] at h
      cases hd : dropCaseInsensitive n s with
      | some r2 =>
          rw [hd] at h
          simp only [Option.some.injEq, Prod.mk.injEq] at h
          obtain ⟨rfl, rfl⟩ := h
          simp only [List.length_cons]
          omega
      | none =>
          rw [hd] at h
          have := ih (i + 1) h
          simp only [List.length_cons]
          omega

/-- Inversion for a one- or two-digit field match: the continuation was
called with a value the field pattern accepts. -/
theorem num21_some (ok2 ok1 : Nat → Bool) (s : Str) (k : Nat → Str → Option DT)
    (x : DT) (h : num21 ok2 ok1 s k = some x) :
    ∃ v r, k v r = some x ∧ ((ok2 v = true ∧ v ≤ 99) ∨ (ok1 v = true ∧ v ≤ 9)) := by
  match s with
  | [] => simp [num21] at h
  | [c] =>
      rw [num21] at h
      split at h
      next hc =>
        simp only [Bool.and_eq_true] at hc
        exact ⟨digitVal c, [], h, Or.inr ⟨hc.2, digitVal_le c hc.1⟩⟩
      next => simp at h
  | c1 :: c2 :: r =>
      rw [num21] at h
      split at h
      next hc =>
        simp only [Bool.and_eq_true] at hc
        cases h2 : (if ok2 (10 * digitVal c1 + digitVal c2) = true then
            k (10 * digitVal c1 + digitVal c2) r else none) with
        | some a =>
            rw [h2] at h
            simp only [Option.orElse] at h
            split at h2
            next hok =>
              refine ⟨10 * digitVal c1 + digitVal c2, r, ?_, Or.inl ⟨hok, ?_⟩⟩
              · rw [h2]
                cases h
                rfl
              · have b1 := digitVal_le c1 hc.1
                have b2 := digitVal_le c2 hc.2
                omega
            next => simp at h2
        | none =>
            rw [h2] at h
            simp only [Option.orElse] at h
            split at h
            next hok => exact ⟨digitVal c1, c2 :: r, h, Or.inr ⟨hok, digitVal_le c1 hc.1⟩⟩
            next => simp at h
      next =>
        split at h
        next hc1 =>
          split at h
          next hok => exact ⟨digitVal c1, c2 :: r, h, Or.inr ⟨hok, digitVal_le c1 hc1⟩⟩
          next => simp at h
        next => simp at h

/-- The fields strptime delivers satisfy the calendar and clock bounds. -/
theorem strptime_fields (s : Str) (dt : DT) (h : strptimeBdYHM s = some dt) :
    validDate dt.date ∧ dt.hour ≤ 23 ∧ dt.minute ≤ 59 := by
  unfold strptimeBdYHM at h
  split at h
  next => simp at h
  next m r1 hm =>
    split at h
    next => simp at h
    next r2 hws1 =>
      obtain ⟨day, r3, hk, hday⟩ := num21_some _ _ _ _ _ h
      split at hk
      next => simp at hk
      next r4 hws2 =>
        split at hk
        next => simp at hk
        next year r5 hy4 =>
          split at hk
          next => simp at hk
          next r6 hws3 =>
            obtain ⟨hour, r7, hk2, hhour⟩ := num21_some _ _ _ _ _ hk
            split at hk2
            next r8 =>
              obtain ⟨minute, r9, hk3, hmin⟩ := num21_some _ _ _ _ _ hk2
              split at hk3
              next =>
                split at hk3
                next hval =>
                  have hmb := matchMonthFrom_bound monthNames 1 s m r1 hm
                  have hlen : monthNames.length = 12 := rfl
                  simp only [Option.some.injEq] at hk3
                  subst hk3
                  have hd1 : 1 ≤ day := by
                    rcases hday with ⟨h2, _⟩ | ⟨h1, _⟩
                    · unfold dayOk2 at h2
                      simp only [Bool.and_eq_true, decide_eq_true_eq] at h2
                      exact h2.1
                    · unfold dayOk1 at h1
                      simpa using h1
                  have hh : hour ≤ 23 := by
                    rcases hhour with ⟨h2, _⟩ | ⟨_, h9⟩
                    · unfold hourOk2 at h2
                      simpa using h2
                    · omega
                  have hm59 : minute ≤ 59 := by
                    rcases hmin with ⟨h2, _⟩ | ⟨_, h9⟩
                    · unfold minuteOk2 at h2
                      simpa using h2
                    · omega
                  refine ⟨?_, hh, hm59⟩
                  exact (validDate_mk year m day).mpr
                    ⟨hval.1, by omega, by omega, hd1, hval.2⟩
                next => simp at hk3
              next => simp at hk3
            next => simp at hk2

/-- C8: for every argument string that parses against the literal format,
the computed epoch timestamp round-trips: converting it back to a local
date/time value reproduces the same calendar date, hour and minute, for
every fixed local-timezone offset. -/
theorem claimC8 (s : Str) (dt : DT) (tz : Int)
    (h : strptimeBdYHM s = some dt) :
    epochToDT tz (dtToEpoch tz dt) = dt := by
  obtain ⟨hval, hh, hm⟩ := strptime_fields s dt h
  obtain ⟨date, hour, minute⟩ := dt
  simp only at hval hh hm
  unfold epochToDT dtToEpoch
  simp only
  have harg : 86400 * ((daysFrom1 date : Int) - (epochDayCount : Int))
      + 3600 * (hour : Int) + 60 * (minute : Int) - 60 * tz + 60 * tz
      = 86400 * ((daysFrom1 date : Int) - (epochDayCount : Int))
        + (3600 * (hour : Int) + 60 * (minute : Int)) := by ring
  rw [harg]
  have hdiv : (86400 * ((daysFrom1 date : Int) - (epochDayCount : Int))
      + (3600 * (hour : Int) + 60 * (minute : Int))) / 86400
      = (daysFrom1 date : Int) - (epochDayCount : Int) := by omega
  have hmod : (86400 * ((daysFrom1 date : Int) - (epochDayCount : Int))
      + (3600 * (hour : Int) + 60 * (minute : Int))) % 86400
      = 3600 * (hour : Int) + 60 * (minute : Int) := by omega
  rw [hdiv, hmod]
  have htn : (3600 * (hour : Int) + 60 * (minute : Int)).toNat
      = 3600 * hour + 60 * minute := by omega
  rw [htn]
  have hhour : (3600 * hour + 60 * minute) / 3600 = hour := by omega
  have hminute : (3600 * hour + 60 * minute) % 3600 / 60 = minute := by omega
  rw [hhour, hminute, dateFromDays_daysFrom1 date hval]

/-- Witness for C8 at the concrete string "January 2 1970 03:04" with a UTC
local timezone. -/
theorem claimC8_witness :
    strptimeBdYHM "January 2 1970 03:04".toList = some ⟨⟨1970, 1, 2⟩, 3, 4⟩ ∧
      epochToDT 0 (dtToEpoch 0 ⟨⟨1970, 1, 2⟩, 3, 4⟩) = ⟨⟨1970, 1, 2⟩, 3, 4⟩ :=
  ⟨by decide, claimC8 "January 2 1970 03:04".toList ⟨⟨1970, 1, 2⟩, 3, 4⟩ 0 (by decide)⟩

/- ----------------------------------------------------------------------
   generate_filename lemmas and claims C6, C3, C1
   ---------------------------------------------------------------------- -/

/-- Appending a suffix makes pyEndsWith hold. -/
theorem pyEndsWith_append (x pat : Str) : pyEndsWith (x ++ pat) pat = true := by
  unfold pyEndsWith
  rw [List.isSuffixOf_iff_suffix]
  exact List.suffix_append x pat

/-- A name returned by the retry loop passed its existence check and is a
sampled name. -/
theorem genAttempts_ok_some (words : List Str) (rand : Nat → List Nat)
    (fs : List Str) (fuel i : Nat) (fn : Str)
    (h : genAttempts words rand fs fuel i = Except.ok (some fn)) :
    fn ∉ fs ∧ ∃ j, fn = sampleName words (rand j) := by
  induction fuel generalizing i with
  | zero => simp [genAttempts] at h
  | succ k ih =>
      rw [genAttempts] at h
      split at h
      next => simp at h
      next =>
        split at h
        next => exact ih (i + 1) h
        next hmem =>
          simp only [Except.ok.injEq, Option.some.injEq] at h
          subst h
          exact ⟨hmem, i, rfl⟩

/-- When every attempt collides, the retry loop reports exhaustion. -/
theorem genAttempts_all_collide (words : List Str) (rand : Nat → List Nat)
    (fs : List Str) (fuel i : Nat) (hw : 3 ≤ words.length)
    (hcol : ∀ j, j < fuel → sampleName words (rand (i + j)) ∈ fs) :
    genAttempts words rand fs fuel i = Except.ok none := by
  induction fuel generalizing i with
  | zero => rfl
  | succ k ih =>
      have hmem : sampleName words (rand i) ∈ fs := by
        have h0 := hcol 0 (by omega)
        simpa using h0
      rw [genAttempts, if_neg (by omega), if_pos hmem]
      exact ih (i + 1) (fun j hj => by
        have h2 := hcol (j + 1) (by omega)
        have hidx : i + (j + 1) = i + 1 + j := by omega
        rwa [hidx] at h2)

/-- A successful generate_filename result either avoided the existing
paths or is the fallback timestamp name. -/
theorem generate_filename_cases (dict : List DictFile) (rand : Nat → List Nat)
    (fs : List Str) (tF : ℚ) (fn : Str)
    (h : generate_filename dict rand fs tF = Except.ok fn) :
    fn ∉ fs ∨ fn = fallbackTimestampName tF := by
  unfold generate_filename at h
  split at h
  next => simp at h
  next fn2 hg =>
    simp only [Except.ok.injEq] at h
    subst h
    exact Or.inl (genAttempts_ok_some _ _ _ _ _ _ hg).1
  next hg =>
    simp only [Except.ok.injEq] at h
    exact Or.inr h.symm

/-- C6, counterexample: a readable dictionary file holding exactly one
usable word makes random.sample raise ValueError inside generate_filename,
so the operation is not total over every dictionary-file content. -/
theorem claimC6_counterexample :
    generate_filename [DictFile.content ["abcd".toList]]
      (fun _ => [0, 1, 2]) [] 0 = Except.error () := by decide

/-- C6, amended: generate_filename never fails and returns a name ending
in ".txt" provided the filtered dictionary word list does not have exactly
one or two entries (in particular whenever no dictionary file is readable,
the filter keeps nothing, or the usual case of three or more words). -/
theorem claimC6_amended (dict : List DictFile) (rand : Nat → List Nat)
    (fs : List Str) (tF : ℚ)
    (h1 : (firstDictWords dict).length ≠ 1)
    (h2 : (firstDictWords dict).length ≠ 2) :
    ∃ fn, generate_filename dict rand fs tF = Except.ok fn ∧
      pyEndsWith fn txtSuffix = true := by
  have hw : 3 ≤ (load_dictionary_words dict).length := by
    have hld : load_dictionary_words dict
        = if (firstDictWords dict).isEmpty then fallbackWords
          else firstDictWords dict := rfl
    rw [hld]
    split
    next hemp => simp [fallbackWords]
    next hemp =>
      have : (firstDictWords dict).length ≠ 0 := by
        simpa [List.isEmpty_iff, List.length_eq_zero] using hemp
      omega
  have hnoerr : ∀ fuel i, ∃ o, genAttempts (load_dictionary_words dict) rand fs fuel i
      = Except.ok o := by
    intro fuel
    induction fuel with
    | zero => exact fun i => ⟨none, rfl⟩
    | succ k ih =>
        intro i
        rw [genAttempts, if_neg (by omega)]
        split
        next => exact ih (i + 1)
        next => exact ⟨_, rfl⟩
  unfold generate_filename
  obtain ⟨o, ho⟩ := hnoerr 3 0
  rw [ho]
  match o with
  | none =>
      refine ⟨fallbackTimestampName tF, rfl, ?_⟩
      unfold fallbackTimestampName
      exact pyEndsWith_append _ _
  | some fn =>
      obtain ⟨hnm, j, hfn⟩ := genAttempts_ok_some _ _ _ _ _ _ ho
      refine ⟨fn, rfl, ?_⟩
      rw [hfn]
      unfold sampleName
      exact pyEndsWith_append _ _

/-- Witness for the amended C6 with no readable dictionary file. -/
theorem claimC6_witness :
    (firstDictWords [DictFile.absent, DictFile.absent, DictFile.absent]).length ≠ 1 ∧
    ∃ fn, generate_filename [DictFile.absent, DictFile.absent, DictFile.absent]
        (fun _ => [0, 1, 2]) [] 0 = Except.ok fn ∧
      pyEndsWith fn txtSuffix = true :=
  ⟨by decide,
   claimC6_amended [DictFile.absent, DictFile.absent, DictFile.absent]
     (fun _ => [0, 1, 2]) [] 0 (by decide) (by decide)⟩

/-- A concrete run environment: a backdating argument, every random pick
colliding with an existing file, and the fallback wall-clock time well
after the requested date. -/
def envC3 : RunEnv :=
  ⟨["January".toList, "1".toList, "2001".toList, "15:30".toList],
   0, 0, [DictFile.absent, DictFile.absent, DictFile.absent],
   fun _ => [0, 1, 2], ["apple_brave_cloud.txt".toList],
   [], [], 1700000000, true⟩

/-- C3, counterexample: with the argument date resolved to epoch 978363000
and all three picks colliding, generate_filename returns the name built
from the fallback-time time.time() call (1700000000), not from the
resolved timestamp now. -/
theorem claimC3_counterexample :
    resolvedNow envC3 = Except.ok (978363000 : ℚ) ∧
    (∀ i, i < 3 →
      sampleName (load_dictionary_words envC3.dict) (envC3.rand i) ∈ envC3.fs) ∧
    generate_filename envC3.dict envC3.rand envC3.fs envC3.tFallback
      = Except.ok "1700000000.txt".toList ∧
    "1700000000.txt".toList ≠ strOfInt (pyInt (978363000 : ℚ)) ++ txtSuffix := by
  refine ⟨?_, ?_, ?_, ?_⟩ <;> decide

/-- C3, amended: when the word list has at least three entries and all
three random picks collide with existing files, generate_filename returns
exactly str(int(t)) + ".txt" where t is the wall-clock time sampled by the
fresh time.time() call at the fallback line, not the resolved timestamp of
the run. -/
theorem claimC3_amended (dict : List DictFile) (rand : Nat → List Nat)
    (fs : List Str) (tF : ℚ)
    (hw : 3 ≤ (load_dictionary_words dict).length)
    (hcol : ∀ i, i < 3 → sampleName (load_dictionary_words dict) (rand i) ∈ fs) :
    generate_filename dict rand fs tF = Except.ok (fallbackTimestampName tF) := by
  unfold generate_filename
  rw [genAttempts_all_collide (load_dictionary_words dict) rand fs 3 0 hw
    (fun j hj => by simpa using hcol j hj)]

/-- Witness for the amended C3 on the concrete colliding environment. -/
theorem claimC3_witness :
    generate_filename envC3.dict envC3.rand envC3.fs envC3.tFallback
      = Except.ok (fallbackTimestampName envC3.tFallback) :=
  claimC3_amended envC3.dict envC3.rand envC3.fs envC3.tFallback
    (by decide) (by decide)

/-- A concrete run environment in which the suggested name is the
timestamp fallback, that file already exists, and the operator accepts the
suggestion with empty input. -/
def envC1 : RunEnv :=
  ⟨[], 50, 0, [DictFile.absent, DictFile.absent, DictFile.absent],
   fun _ => [0, 1, 2],
   ["apple_brave_cloud.txt".toList, "100.txt".toList],
   [], [], 100, true⟩

/-- C1, counterexample: the run writes the post to the pre-existing file
100.txt without ever prompting for overwrite confirmation, because the
timestamp fallback name is never existence-checked. -/
theorem claimC1_counterexample :
    (runNewPost envC1).written = some "100.txt".toList ∧
    "100.txt".toList ∈ envC1.fs ∧
    (runNewPost envC1).confirmAsked = false := by
  refine ⟨?_, ?_, ?_⟩ <;> decide

/-- C1, amended: whenever the run writes to a file that already existed at
the time of the existence checks without having asked for overwrite
confirmation, the operator input was empty (after stripping) and the
written name is the unchecked timestamp fallback name; every other path
either picks a fresh name or asks for confirmation. -/
theorem claimC1_amended (env : RunEnv) (fn : Str)
    (hw : (runNewPost env).written = some fn)
    (hmem : fn ∈ env.fs)
    (hask : (runNewPost env).confirmAsked = false) :
    pyStrip env.userLine = [] ∧ fn = fallbackTimestampName env.tFallback := by
  unfold runNewPost at hw hask
  cases hres : resolvedNow env with
  | error e => rw [hres] at hw; simp at hw
  | ok q =>
    rw [hres] at hw hask
    try dsimp only at hw hask
    cases hg : generate_filename env.dict env.rand env.fs env.tFallback with
    | error e => rw [hg] at hw; simp at hw
    | ok sug =>
      rw [hg] at hw hask
      try dsimp only at hw hask
      cases hu : get_user_filename env.fs sug env.userLine env.answer with
      | error n => rw [hu] at hw; simp at hw
      | ok p =>
        obtain ⟨fn2, asked⟩ := p
        rw [hu] at hw hask
        try dsimp only at hw hask
        simp only [Option.some.injEq] at hw hask
        subst hw
        subst hask
        unfold get_user_filename at hu
        split at hu
        next hemp =>
          simp only [Except.ok.injEq, Prod.mk.injEq] at hu
          obtain ⟨rfl, -⟩ := hu
          refine ⟨by simpa [List.isEmpty_iff] using hemp, ?_⟩
          rcases generate_filename_cases _ _ _ _ _ hg with hnm | hfb
          · exact absurd hmem hnm
          · exact hfb
        next hemp =>
          split at hu
          next hex =>
            split at hu
            next =>
              simp only [Except.ok.injEq, Prod.mk.injEq] at hu
              exact absurd hu.2.symm (by simp)
            next => simp at hu
          next hex =>
            simp only [Except.ok.injEq, Prod.mk.injEq] at hu
            obtain ⟨rfl, -⟩ := hu
            exact absurd hmem hex

/-- Witness for the amended C1 on the concrete environment. -/
theorem claimC1_witness :
    pyStrip envC1.userLine = [] ∧
      "100.txt".toList = fallbackTimestampName envC1.tFallback :=
  claimC1_amended envC1 "100.txt".toList (by decide) (by decide) (by decide)

/- ----------------------------------------------------------------------
   Claims C2, C4, C5
   ---------------------------------------------------------------------- -/

/-- A concrete run environment whose space-joined argument string carries
trailing whitespace: the joined string itself does not match the format
(unconverted data remains), but the top level strips it before parsing
and the run proceeds. -/
def envC2x : RunEnv :=
  ⟨["January".toList, "1".toList, "2001".toList, "15:30 ".toList],
   0, 0, [DictFile.absent, DictFile.absent, DictFile.absent],
   fun _ => [0, 1, 2], [], [], [], 0, true⟩

/-- C2, counterexample: an invocation whose space-joined argument string
does not parse against the format (here only because of its trailing
whitespace) for which the process neither aborts nor leaves the disk
untouched: the joined string is stripped before parsing, the run exits
normally and a post file is created. -/
theorem claimC2_counterexample :
    envC2x.args ≠ [] ∧
    strptimeBdYHM (joinedArgs envC2x.args) = none ∧
    (runNewPost envC2x).written = some "apple_brave_cloud.txt".toList ∧
    (runNewPost envC2x).exit = ExitKind.normal := by
  refine ⟨?_, ?_, ?_, ?_⟩ <;> decide

/-- C2, amended: the argument string is whitespace-stripped before it is
parsed; when arguments are given and the stripped space-joined string
does not parse against the format, the run terminates through the
uncaught ValueError of strptime (Python prints a traceback diagnostic and
exits nonzero) with no post file written, no child process spawned and
hence no directory created. -/
theorem claimC2 (env : RunEnv) (hargs : env.args ≠ [])
    (hparse : strptimeBdYHM (pyStrip (joinedArgs env.args)) = none) :
    (runNewPost env).written = none ∧ (runNewPost env).spawned = [] ∧
      (runNewPost env).exit = ExitKind.uncaught := by
  have hres : resolvedNow env = Except.error () := by
    unfold resolvedNow
    rw [if_neg hargs, hparse]
  unfold runNewPost
  rw [hres]
  exact ⟨rfl, rfl, rfl⟩

/-- A concrete run environment with an argument that is not a date. -/
def envC2 : RunEnv :=
  ⟨["Foo".toList, "1".toList, "2001".toList, "15:30".toList],
   0, 0, [DictFile.absent, DictFile.absent, DictFile.absent],
   fun _ => [0, 1, 2], [], [], [], 0, true⟩

/-- Witness for the amended C2 on the argument string "Foo 1 2001 15:30",
which fails to parse stripped or not. -/
theorem claimC2_witness :
    envC2.args ≠ [] ∧
    strptimeBdYHM (pyStrip (joinedArgs envC2.args)) = none ∧
    ((runNewPost envC2).written = none ∧ (runNewPost envC2).spawned = [] ∧
      (runNewPost envC2).exit = ExitKind.uncaught) :=
  ⟨by decide, by decide, claimC2 envC2 (by decide) (by decide)⟩

/-- C4, counterexample: the operator input consisting of a single space is
a non-empty input line that does not end in ".txt", yet the accepted
filename is the suggestion, not the input with ".txt" appended, because
the code strips the line first. -/
theorem claimC4_counterexample :
    get_user_filename [] "sug.txt".toList [' '] []
      = Except.ok ("sug.txt".toList, false) ∧
    "sug.txt".toList ≠ ' ' :: txtSuffix := by
  refine ⟨?_, ?_⟩ <;> decide

/-- C4, amended: the trichotomy holds for the whitespace-stripped input
line: if the stripped input is empty the suggestion is accepted as is, and
otherwise any accepted filename is the stripped input, with ".txt"
appended when the stripped input does not already end in ".txt". -/
theorem claimC4_amended (fs : List Str) (sug line answer : Str) :
    (pyStrip line = [] →
      get_user_filename fs sug line answer = Except.ok (sug, false)) ∧
    (pyStrip line ≠ [] → ∀ fn asked,
      get_user_filename fs sug line answer = Except.ok (fn, asked) →
      fn = (if pyEndsWith (pyStrip line) txtSuffix then pyStrip line
            else pyStrip line ++ txtSuffix)) := by
  constructor
  · intro hs
    unfold get_user_filename
    rw [if_pos (by simp [List.isEmpty_iff, hs])]
  · intro hs fn asked h
    have hT : typedName line
        = (if pyEndsWith (pyStrip line) txtSuffix then pyStrip line
           else pyStrip line ++ txtSuffix) := rfl
    rw [← hT]
    unfold get_user_filename at h
    rw [if_neg (by simpa [List.isEmpty_iff] using hs)] at h
    split at h
    next =>
      split at h
      next =>
        simp only [Except.ok.injEq, Prod.mk.injEq] at h
        exact h.1.symm
      next => simp at h
    next =>
      simp only [Except.ok.injEq, Prod.mk.injEq] at h
      exact h.1.symm

/-- Witness for the amended C4 at input " myfile " (stripped to "myfile",
so the accepted name is "myfile.txt"). -/
theorem claimC4_witness :
    pyStrip " myfile ".toList ≠ [] ∧
    get_user_filename [] "a.txt".toList " myfile ".toList []
      = Except.ok ("myfile.txt".toList, false) ∧
    "myfile.txt".toList
      = (if pyEndsWith (pyStrip " myfile ".toList) txtSuffix
         then pyStrip " myfile ".toList
         else pyStrip " myfile ".toList ++ txtSuffix) :=
  ⟨by decide, by decide,
   (claimC4_amended [] "a.txt".toList " myfile ".toList []).2 (by decide)
     "myfile.txt".toList false (by decide)⟩

/-- C5, counterexample: at the overwrite prompt the answer " y" (with a
leading space) is neither "y" nor "Y", yet the run proceeds, because the
code strips and lowercases the answer before comparing. -/
theorem claimC5_counterexample :
    get_user_filename ["x.txt".toList] "sug.txt".toList "x".toList (' ' :: ['y'])
      = Except.ok ("x.txt".toList, true) ∧
    (' ' :: ['y']) ≠ ['y'] ∧ (' ' :: ['y']) ≠ ['Y'] := by
  refine ⟨?_, ?_, ?_⟩ <;> decide

/-- C5, amended: when the stripped operator input is non-empty and the
typed filename exists, the overwrite confirmation is prompted; an answer
whose stripped, lowercased form differs from "y" makes the process exit
with status 1 having written no file, spawned no child and created no
directory, while an answer whose stripped, lowercased form is "y"
proceeds with the typed name. -/
theorem claimC5_amended (env : RunEnv) (q : ℚ) (sug : Str)
    (hres : resolvedNow env = Except.ok q)
    (hg : generate_filename env.dict env.rand env.fs env.tFallback = Except.ok sug)
    (hu : pyStrip env.userLine ≠ [])
    (hex : typedName env.userLine ∈ env.fs) :
    (pyLower (pyStrip env.answer) ≠ yesStr →
      runNewPost env = ⟨none, [], ExitKind.code 1, false, true⟩) ∧
    (pyLower (pyStrip env.answer) = yesStr →
      (runNewPost env).written = some (typedName env.userLine) ∧
        (runNewPost env).confirmAsked = true) := by
  have hempty : ¬ (pyStrip env.userLine).isEmpty = true := by
    simpa [List.isEmpty_iff] using hu
  constructor
  · intro hans
    have hguf : get_user_filename env.fs sug env.userLine env.answer
        = Except.error 1 := by
      unfold get_user_filename
      rw [if_neg hempty, if_pos hex, if_neg hans]
    unfold runNewPost
    rw [hres]
    dsimp only
    rw [hg]
    dsimp only
    rw [hguf]
  · intro hans
    have hguf : get_user_filename env.fs sug env.userLine env.answer
        = Except.ok (typedName env.userLine, true) := by
      unfold get_user_filename
      rw [if_neg hempty, if_pos hex, if_pos hans]
    unfold runNewPost
    rw [hres]
    dsimp only
    rw [hg]
    dsimp only
    rw [hguf]
    exact ⟨rfl, rfl⟩

/-- A concrete run environment reaching the overwrite prompt with a
declining answer. -/
def envC5 : RunEnv :=
  ⟨[], 5, 0, [DictFile.absent, DictFile.absent, DictFile.absent],
   fun _ => [0, 1, 2], ["x.txt".toList], "x".toList, "q".toList, 7, true⟩

/-- Witness for the amended C5: the declining answer "q" aborts the run
with exit status 1 and nothing written or spawned. -/
theorem claimC5_witness :
    runNewPost envC5 = ⟨none, [], ExitKind.code 1, false, true⟩ :=
  (claimC5_amended envC5 5 "apple_brave_cloud.txt".toList (by decide) (by decide)
    (by decide) (by decide)).1 (by decide)

/- ----------------------------------------------------------------------
   Claims C7 and C9
   ---------------------------------------------------------------------- -/

/-- Splitting off the first line: a newline after a newline-free prefix
closes exactly that prefix as one line. -/
theorem pySplitlines_append (a b : Str) (ha : '\n' ∉ a) :
    pySplitlines (a ++ '\n' :: b) = a :: pySplitlines b := by
  induction a with
  | nil =>
      show pySplitlines ('\n' :: b) = [] :: pySplitlines b
      rw [pySplitlines]
      rw [if_pos rfl]
  | cons c cs ih =>
      have hc : ¬ c = '\n' := by
        intro hcc
        exact ha (by rw [hcc]; exact List.mem_cons_self _ _)
      have hcs : '\n' ∉ cs := fun hm => ha (List.mem_cons_of_mem _ hm)
      rw [List.cons_append, pySplitlines, if_neg hc, ih hcs]

/-- C7: for every rendering of the resolved timestamp (which contains no
newline), the lines of the written post file are exactly the six header
fields in order, the separator, and one placeholder content line. -/
theorem claimC7 (s : Str) (h : '\n' ∉ s) :
    pySplitlines (writtenPost s) =
      ["title:None".toList, "tags:".toList, "summary:".toList,
       "static_icon:".toList, "parse:".toList, "date:".toList ++ s,
       "###".toList,
       "Your content here (Markdown and/or HTML can mix freely, see README)".toList] := by
  have hform : writtenPost s
      = "title:None".toList ++ '\n' :: ("tags:".toList ++ '\n' ::
        ("summary:".toList ++ '\n' :: ("static_icon:".toList ++ '\n' ::
        ("parse:".toList ++ '\n' :: (("date:".toList ++ s) ++ '\n' ::
        ("###".toList ++ '\n' ::
          ("Your content here (Markdown and/or HTML can mix freely, see README)".toList
            ++ '\n' :: ([] : Str)))))))) := by
    simp only [writtenPost, postOutput, postHeaderPart, postTailPart,
      List.append_assoc]
    rfl
  have hdate : '\n' ∉ "date:".toList ++ s := by
    intro hm
    rcases List.mem_append.mp hm with hm1 | hm2
    · revert hm1
      decide
    · exact h hm2
  rw [hform]
  rw [pySplitlines_append _ _ (by decide)]
  rw [pySplitlines_append _ _ (by decide)]
  rw [pySplitlines_append _ _ (by decide)]
  rw [pySplitlines_append _ _ (by decide)]
  rw [pySplitlines_append _ _ (by decide)]
  rw [pySplitlines_append _ _ hdate]
  rw [pySplitlines_append _ _ (by decide)]
  rw [pySplitlines_append _ _ (by decide)]
  rfl

/-- Witness for C7 at a concrete timestamp rendering. -/
theorem claimC7_witness :
    ('\n' ∉ "978363000.0".toList) ∧
    pySplitlines (writtenPost "978363000.0".toList) =
      ["title:None".toList, "tags:".toList, "summary:".toList,
       "static_icon:".toList, "parse:".toList,
       "date:".toList ++ "978363000.0".toList, "###".toList,
       "Your content here (Markdown and/or HTML can mix freely, see README)".toList] :=
  ⟨by decide, claimC7 "978363000.0".toList (by decide)⟩

/-- A concrete run environment whose mkdir child fails. -/
def envC9 : RunEnv :=
  ⟨[], 5, 0, [DictFile.absent, DictFile.absent, DictFile.absent],
   fun _ => [0, 1, 2], [], [], [], 7, false⟩

/-- C9, counterexample: a run whose mkdir child fails (no directory is
created) still spawns the directory viewer and the editor and exits
normally, so the failure is not fatal and the process does not terminate
at that point. -/
theorem claimC9_counterexample :
    envC9.mkdirOk = false ∧
    (runNewPost envC9).dirCreated = false ∧
    (runNewPost envC9).exit = ExitKind.normal ∧
    (runNewPost envC9).spawned =
      [["mkdir".toList, "../img/apple_brave_cloud".toList],
       ["open".toList, "../img/apple_brave_cloud".toList],
       ["vim".toList, "apple_brave_cloud.txt".toList]] ∧
    (runNewPost envC9).written = some "apple_brave_cloud.txt".toList := by
  refine ⟨rfl, ?_, ?_, ?_, ?_⟩ <;> decide

/-- C9, amended: the image-directory creation failure is reported only by
the mkdir child itself and is not fatal: every run that writes a post file
spawns mkdir exactly once (no retry) followed by the viewer and the
editor, and exits normally, whether or not the mkdir child succeeded; the
written post file remains. -/
theorem claimC9_amended (env : RunEnv) (fn : Str)
    (hw : (runNewPost env).written = some fn) :
    (runNewPost env).exit = ExitKind.normal ∧
    (runNewPost env).spawned =
      [["mkdir".toList, imageDirOf fn], ["open".toList, imageDirOf fn],
       ["vim".toList, fn]] := by
  unfold runNewPost at hw ⊢
  cases hres : resolvedNow env with
  | error e => simp [hres] at hw
  | ok q =>
    (try rw [hres] at hw)
    (try dsimp only at hw ⊢)
    cases hg : generate_filename env.dict env.rand env.fs env.tFallback with
    | error e => simp [hres, hg] at hw
    | ok sug =>
      (try rw [hg] at hw)
      (try dsimp only at hw ⊢)
      cases hu : get_user_filename env.fs sug env.userLine env.answer with
      | error n => simp [hres, hg, hu] at hw
      | ok p =>
        obtain ⟨fn2, asked⟩ := p
        (try rw [hu] at hw)
        (try dsimp only at hw ⊢)
        simp only [Option.some.injEq] at hw
        subst hw
        exact ⟨rfl, rfl⟩

/-- Witness for the amended C9 on the concrete environment with a failing
mkdir child. -/
theorem claimC9_witness :
    (runNewPost envC9).exit = ExitKind.normal ∧
    (runNewPost envC9).spawned =
      [["mkdir".toList, imageDirOf "apple_brave_cloud.txt".toList],
       ["open".toList, imageDirOf "apple_brave_cloud.txt".toList],
       ["vim".toList, "apple_brave_cloud.txt".toList]] :=
  claimC9_amended envC9 "apple_brave_cloud.txt".toList (by decide)

/- ----------------------------------------------------------------------
   Claim C10
   ---------------------------------------------------------------------- -/

/-- Python string comparison is total. -/
theorem pyStrLe_total : ∀ a b : Str, (pyStrLe a b || pyStrLe b a) = true
  | [], b => by simp [pyStrLe]
  | a :: as, [] => by simp [pyStrLe]
  | a :: as, b :: bs => by
      by_cases h1 : a < b
      · simp [pyStrLe, h1]
      · by_cases h2 : a = b
        · subst h2
          have htail := pyStrLe_total as bs
          simp [pyStrLe, h1, htail]
        · have h3 : b < a := by
            rcases lt_trichotomy a b with h | h | h
            · exact absurd h h1
            · exact absurd h h2
            · exact h
          have h4 : ¬ b = a := fun hba => h2 hba.symm
          simp [pyStrLe, h1, h2, h3, h4]

/-- Python string comparison is transitive. -/
theorem pyStrLe_trans : ∀ a b c : Str, pyStrLe a b = true → pyStrLe b c = true →
    pyStrLe a c = true
  | [], _, _ => by simp [pyStrLe]
  | a :: as, [], _ => by simp [pyStrLe]
  | a :: as, b :: bs, [] => by intro h1 h2; simp [pyStrLe] at h2
  | a :: as, b :: bs, c :: cs => by
      intro h1 h2
      unfold pyStrLe at h1 h2 ⊢
      by_cases hab : a < b
      · by_cases hbc : b < c
        · rw [if_pos (lt_trans hab hbc)]
        · rcases lt_trichotomy b c with h | h | h
          · exact absurd h hbc
          · subst h
            rw [if_pos hab]
          · rw [if_neg hbc] at h2
            rcases lt_trichotomy b c with h5 | h5 | h5
            · exact absurd h5 hbc
            · subst h5
              rw [if_pos hab]
            · rw [if_neg (by intro hbc2; subst hbc2; exact absurd h5 (lt_irrefl b))] at h2
              simp at h2
      · rw [if_neg hab] at h1
        by_cases hab2 : a = b
        · subst hab2
          rw [if_pos rfl] at h1
          by_cases hac : a < c
          · rw [if_pos hac]
          · rcases lt_trichotomy a c with h | h | h
            · exact absurd h hac
            · subst h
              rw [if_neg hac, if_pos rfl]
              rw [if_neg hac, if_pos rfl] at h2
              exact pyStrLe_trans as bs cs h1 h2
            · rw [if_neg hac] at h2
              rw [if_neg (fun hacc : a = c => absurd (hacc ▸ h) (lt_irrefl c))] at h2
              simp at h2
        · rw [if_neg hab2] at h1
          simp at h1

/-- A fold that skips some elements and conses a function of the others
builds the mapped filter. -/
theorem foldr_skip (p : Str → Bool) (g : Str → Str) (l : List Str) :
    l.foldr (fun file acc => if p file = true then acc else g file :: acc) [] =
      (l.filter (fun f => !p f)).map g := by
  induction l with
  | nil => rfl
  | cons x xs ih =>
      by_cases h : p x = true <;>
        simp [List.foldr, List.filter_cons, h, ih]

/-- Counting inside a filtered list. -/
theorem count_filter_eq (p : Str → Bool) (a : Str) (l : List Str) :
    (l.filter p).count a = if p a = true then l.count a else 0 := by
  induction l with
  | nil => simp
  | cons x xs ih =>
      by_cases hx : p x = true
      · rw [List.filter_cons_of_pos hx]
        by_cases hax : a = x
        · subst hax
          simp [List.count_cons_self, ih, hx]
        · rw [List.count_cons_of_ne hax, List.count_cons_of_ne hax, ih]
      · rw [List.filter_cons_of_neg hx]
        by_cases hax : a = x
        · subst hax
          simp [ih, hx]
        · rw [List.count_cons_of_ne hax, ih]

/-- The splitext pieces of a filename recombine to the filename. -/
theorem pySplitext_recombine (p : Str) :
    (pySplitext p).1 ++ (pySplitext p).2 = p :=
  List.take_append_drop (pySplitextIdx p) p

/-- The emitted anchor block equals its specification reading: the img src
is the directory joined with "thumb" prefixed to the whole filename. -/
theorem anchorLine_eq_spec (directory gallery_name file : Str) :
    anchorLine directory gallery_name file
      = anchorLineSpec directory gallery_name file := by
  unfold anchorLine anchorLineSpec
  have hthumb : thumbLit ++ (pySplitext file).1 ++ (pySplitext file).2
      = thumbLit ++ file := by
    rw [List.append_assoc, pySplitext_recombine]
  simp only at hthumb ⊢
  rw [hthumb]

/-- Permutations preserve counts (stated for the default instances used
throughout this file). -/
theorem count_perm {l1 l2 : List Str} (h : l1.Perm l2) :
    ∀ a : Str, l1.count a = l2.count a := by
  induction h with
  | nil => intro a; rfl
  | cons x h ih => intro a; simp [List.count_cons, ih a]
  | swap x y l => intro a; simp only [List.count_cons]; omega
  | trans h1 h2 ih1 ih2 => intro a; exact (ih1 a).trans (ih2 a)

/-- C10: the gallery markup consists of exactly one anchor block per
listed file whose name ends case-insensitively in .jpg, .jpeg or .png and
does not start with "thumb", in ascending sorted filename order, each
block linking the original file as the href and the "thumb"-prefixed
counterpart name of the same directory as the img src; no other file
produces output. -/
theorem claimC10 (directory gallery_name : Str) (listing : List Str) :
    ∃ fs : List Str,
      generate_gallery_html directory listing gallery_name =
        List.intercalate ['\n']
          (fs.map (anchorLineSpec (pyRstripSlash directory) gallery_name)) ∧
      List.Pairwise (fun a b => pyStrLe a b = true) fs ∧
      ∀ f : Str, fs.count f =
        (if isImageName f = true ∧ pyStartsWith f thumbLit = false
         then listing.count f else 0) := by
  refine ⟨((listing.filter isImageName).mergeSort pyStrLe).filter
      (fun f => !pyStartsWith f thumbLit), ?_, ?_, ?_⟩
  · unfold generate_gallery_html
    dsimp only
    rw [foldr_skip]
    have hmap : ∀ l : List Str,
        l.map (anchorLine (pyRstripSlash directory) gallery_name)
          = l.map (anchorLineSpec (pyRstripSlash directory) gallery_name) := by
      intro l
      induction l with
      | nil => rfl
      | cons x xs ih => simp [ih, anchorLine_eq_spec]
    rw [hmap]
  · exact (List.sorted_mergeSort pyStrLe_trans pyStrLe_total
      (listing.filter isImageName)).filter _
  · intro f
    rw [count_filter_eq]
    rw [count_perm (List.mergeSort_perm (listing.filter isImageName) pyStrLe) f]
    rw [count_filter_eq]
    by_cases h1 : isImageName f = true <;> by_cases h2 : pyStartsWith f thumbLit = true <;>
      simp [h1, h2]
